import Mathlib

/-!
Shallow embedding of the CLARA document-analysis pipeline
(`app/services/analysis_service.py`, `app/utils/openai_utils.py`,
`app/utils/claude_utils.py`, `app/utils/pubmed_utils.py`).

Python strings are modelled as `List Char`; Python dicts produced by
`json.loads` are modelled as insertion-ordered association lists; remote
calls (OpenAI / Anthropic / Entrez / requests) are oracles supplied as
`Except`-valued functions, exceptions being `Except.error` with the
exception message as payload.
-/

/-- Model of a Python string (sequence of code points). -/
abbrev Str := List Char

/-- Characters that are risky to write literally are named via their code points. -/
def lbrace : Char := Char.ofNat 123

/-- Closing curly brace character. -/
def rbrace : Char := Char.ofNat 125

/-- Backtick character. -/
def btick : Char := Char.ofNat 96

/-- Double-quote character. -/
def dq : Char := Char.ofNat 34

/-- Backslash character. -/
def bs : Char := Char.ofNat 92

/-- Code points for which CPython's `Py_UNICODE_ISSPACE` holds: this is the
character class of both `str.isspace` and the regex `\s` on `str` patterns
(U+0009-U+000D, U+001C-U+001F, space, U+0085, U+00A0, U+1680, U+2000-U+200A,
U+2028, U+2029, U+202F, U+205F, U+3000). -/
def pyWsCodes : List Nat :=
  [9, 10, 11, 12, 13, 28, 29, 30, 31, 32, 133, 160, 5760,
   8192, 8193, 8194, 8195, 8196, 8197, 8198, 8199, 8200, 8201, 8202,
   8232, 8233, 8239, 8287, 12288]

/-- Python regex `\s` / `str.isspace` character class. -/
def isWs (c : Char) : Bool := pyWsCodes.contains c.toNat

/-- Whitespace accepted between JSON tokens by `json.loads` (strict JSON). -/
def jsonWs (c : Char) : Bool :=
  c = ' ' || c = Char.ofNat 9 || c = Char.ofNat 10 || c = Char.ofNat 13

/-- Model of Python `str.strip()`: drop leading and trailing whitespace. -/
def pyStrip (t : Str) : Str :=
  ((t.dropWhile isWs).reverse.dropWhile isWs).reverse

/-- Model of Python `needle in haystack` (substring containment). -/
def isSubstr (needle : Str) : Str → Bool
  | [] => needle.isPrefixOf []
  | c :: rest => needle.isPrefixOf (c :: rest) || isSubstr needle rest

/-- Model of Python `str.lower()` (ASCII case folding suffices for the markers used). -/
def toLowerStr (s : Str) : Str := s.map Char.toLower

/-- Model of Python `s.split(sep)` for a single-character separator `'/'`:
`"a//b".split('/') == ["a","","b"]`, `"".split('/') == [""]`. -/
def pySplitSlash : Str → List Str
  | [] => [[]]
  | c :: rest =>
    let r := pySplitSlash rest
    if c = '/' then [] :: r
    else match r with
      | [] => [[c]]
      | h :: t => (c :: h) :: t

/-- Model of Python `'/'.join(parts)`. -/
def joinSlash : List Str → Str
  | [] => []
  | [s] => s
  | s :: rest => s ++ '/' :: joinSlash rest

/-- JSON values as produced by Python `json.loads`. Numbers are modelled as
integers (the pipeline's claims only exercise integer numerals; a numeral with
a fractional or exponent part is treated as unparseable by this model). -/
inductive JVal where
  | null : JVal
  | bool : Bool → JVal
  | num : Int → JVal
  | str : Str → JVal
  | arr : List JVal → JVal
  | obj : List (Str × JVal) → JVal

/-- A Python dict with string keys, in insertion order. -/
abbrev Obj := List (Str × JVal)

/-- Model of Python `d[k] = v`: update in place if the key exists (keeping its
position), otherwise append at the end. -/
def dictSet (o : Obj) (k : Str) (v : JVal) : Obj :=
  if o.any (fun kv => kv.1 = k) then
    o.map (fun kv => if kv.1 = k then (k, v) else kv)
  else o ++ [(k, v)]

/-- Model of Python `d.get(k)` returning the first (unique) binding. -/
def dictGet (o : Obj) (k : Str) : Option JVal :=
  (o.find? (fun kv => kv.1 = k)).map (fun kv => kv.2)

/-- Model of Python `k in d`. -/
def hasKey (o : Obj) (k : Str) : Bool := o.any (fun kv => kv.1 = k)

/-- Model of Python `d.get(k, default)`: the raw stored value, whatever its
type, or the default when the key is absent. -/
def pyGet (o : Obj) (k : Str) (d : JVal) : JVal :=
  (dictGet o k).getD d

/-- Python truthiness of a JSON value (`None`, `False`, `0`, `""`, `[]`, `{}`
are falsy). -/
def jvalTruthy : JVal → Bool
  | JVal.null => false
  | JVal.bool b => b
  | JVal.num n => n != 0
  | JVal.str s => !s.isEmpty
  | JVal.arr xs => !xs.isEmpty
  | JVal.obj kvs => !kvs.isEmpty

/-- Python `v == s` between a JSON value and a string literal: only equal
strings compare equal; any non-string value compares unequal. -/
def jvalEqStr (v : JVal) (s : Str) : Bool :=
  match v with
  | JVal.str t => t == s
  | _ => false

/-- Escape characters accepted inside JSON strings (`\uXXXX` is not modelled;
the pipeline's inputs do not use it). -/
def escChar (c : Char) : Option Char :=
  if c = dq then some dq
  else if c = bs then some bs
  else if c = '/' then some '/'
  else if c = 'n' then some (Char.ofNat 10)
  else if c = 't' then some (Char.ofNat 9)
  else if c = 'r' then some (Char.ofNat 13)
  else if c = 'b' then some (Char.ofNat 8)
  else if c = 'f' then some (Char.ofNat 12)
  else none

/-- Parse the body of a JSON string after the opening quote; returns the decoded
content and the rest of the input after the closing quote. Strict JSON rejects
raw control characters inside strings. -/
def parseStrAux : Nat → Str → Option (Str × Str)
  | 0, _ => none
  | _, [] => none
  | fuel + 1, c :: rest =>
    if c = dq then some ([], rest)
    else if c = bs then
      match rest with
      | [] => none
      | e :: rest2 =>
        match escChar e with
        | some ch => (parseStrAux fuel rest2).map (fun p => (ch :: p.1, p.2))
        | none => none
    else if c.toNat < 32 then none
    else (parseStrAux fuel rest).map (fun p => (c :: p.1, p.2))

/-- Digits of a decimal numeral folded into a natural number. -/
def digitsToNat (ds : Str) : Nat :=
  ds.foldl (fun acc c => acc * 10 + (c.toNat - 48)) 0

/-- Parse a JSON number. Integer numerals only; a fractional or exponent part
is rejected by this model (unused by the pipeline's claims). Strict JSON
forbids leading zeros. -/
def parseNum (s : Str) : Option (JVal × Str) :=
  let negAndBody : Bool × Str := match s with
    | '-' :: r => (true, r)
    | _ => (false, s)
  let neg := negAndBody.1
  let s1 := negAndBody.2
  match s1.head? with
  | none => none
  | some c =>
    if c.isDigit then
      let ds := s1.takeWhile Char.isDigit
      let rest := s1.dropWhile Char.isDigit
      if 1 < ds.length ∧ ds.head? = some '0' then none
      else match rest.head? with
        | some '.' => none
        | some 'e' => none
        | some 'E' => none
        | _ =>
          let n : Int := Int.ofNat (digitsToNat ds)
          some (JVal.num (if neg then -n else n), rest)
    else none

/-- Mode of the recursive-descent JSON parser: one value, an object body after
its opening brace, the members of an object (dict built so far in the
accumulator, with Python's update semantics for repeated keys), an array body
after its opening bracket, or the elements of an array. -/
inductive PMode where
  | val : PMode
  | objBody : PMode
  | members : Obj → PMode
  | arrBody : PMode
  | elems : List JVal → PMode

/-- Recursive descent of `json.loads`, written as a single fuel-indexed
function so that it is structurally recursive (and hence computable by
reduction). -/
def parseStep : Nat → PMode → Str → Option (JVal × Str)
  | 0, _, _ => none
  | fuel + 1, PMode.val, s =>
    let s1 := s.dropWhile jsonWs
    match s1 with
    | [] => none
    | c :: rest =>
      if c = dq then
        (parseStrAux (rest.length + 1) rest).map (fun p => (JVal.str p.1, p.2))
      else if c = lbrace then parseStep fuel PMode.objBody rest
      else if c = '[' then parseStep fuel PMode.arrBody rest
      else if c = 't' then
        if "rue".toList.isPrefixOf rest then some (JVal.bool true, rest.drop 3) else none
      else if c = 'f' then
        if "alse".toList.isPrefixOf rest then some (JVal.bool false, rest.drop 4) else none
      else if c = 'n' then
        if "ull".toList.isPrefixOf rest then some (JVal.null, rest.drop 3) else none
      else parseNum s1
  | fuel + 1, PMode.objBody, s =>
    let s1 := s.dropWhile jsonWs
    match s1 with
    | [] => none
    | c :: _ =>
      if c = rbrace then some (JVal.obj [], s1.tail)
      else parseStep fuel (PMode.members []) s1
  | fuel + 1, PMode.members acc, s =>
    match s with
    | [] => none
    | c :: rest =>
      if c = dq then
        match parseStrAux (rest.length + 1) rest with
        | none => none
        | some (key, r1) =>
          match r1.dropWhile jsonWs with
          | ':' :: r2 =>
            match parseStep fuel PMode.val r2 with
            | none => none
            | some (v, r3) =>
              match r3.dropWhile jsonWs with
              | ',' :: r4 =>
                parseStep fuel (PMode.members (dictSet acc key v)) (r4.dropWhile jsonWs)
              | c2 :: r4 =>
                if c2 = rbrace then some (JVal.obj (dictSet acc key v), r4) else none
              | [] => none
          | _ => none
      else none
  | fuel + 1, PMode.arrBody, s =>
    let s1 := s.dropWhile jsonWs
    match s1 with
    | [] => none
    | c :: _ =>
      if c = ']' then some (JVal.arr [], s1.tail)
      else parseStep fuel (PMode.elems []) s1
  | fuel + 1, PMode.elems acc, s =>
    match parseStep fuel PMode.val s with
    | none => none
    | some (v, r1) =>
      match r1.dropWhile jsonWs with
      | ',' :: r2 => parseStep fuel (PMode.elems (acc ++ [v])) r2
      | c :: r2 => if c = ']' then some (JVal.arr (acc ++ [v]), r2) else none
      | [] => none

/-- Model of Python `json.loads`: parse one value, then require only trailing
whitespace (`json.loads` raises `JSONDecodeError` on extra data); `none` stands
for a raised `JSONDecodeError`. -/
def jsonLoads (s : Str) : Option JVal :=
  match parseStep (2 * s.length + 4) PMode.val s with
  | some (v, rest) => if rest.dropWhile jsonWs = [] then some v else none
  | none => none

/-- Helper to write a brace-delimited text: `jobjStr inner` is `{inner}`. -/
def jobjStr (inner : Str) : Str := lbrace :: inner ++ [rbrace]

/-- The string `{}` returned by `extract_json_from_text` for empty input. -/
def emptyObjStr : Str := [lbrace, rbrace]

/-- The literal last-resort JSON string of `extract_json_from_text`. -/
def errorJsonStr : Str :=
  jobjStr ("\"Error\": \"Could not extract valid JSON from model response\", \"Title\": \"Error Processing Document\"".toList)

/-- Shortest prefix of the input up to and including the first closing brace
(the lazy regex body `[\s\S]*?}`); `none` when no closing brace occurs. -/
def spanToClose : Str → Option Str
  | [] => none
  | c :: rest =>
    if c = rbrace then some [rbrace]
    else (spanToClose rest).map (fun s => c :: s)

/-- Leftmost-shortest match of the regex `({[\s\S]*?})` via `re.search`: the
span from the first opening brace to the first closing brace after it. If the
first opening brace has no closing brace after it, no later start can match
either, so the search fails. -/
def searchBrace : Str → Option Str
  | [] => none
  | c :: rest =>
    if c = lbrace then (spanToClose rest).map (fun s => lbrace :: s)
    else searchBrace rest

/-- After a candidate closing brace of the fenced regex, the remainder must
match `\s*` followed by three backticks. -/
def checkTail (rest : Str) : Bool :=
  [btick, btick, btick].isPrefixOf (rest.dropWhile isWs)

/-- Lazy scan of the group `{[\s\S]*?}` inside the fenced regex: accept at the
first closing brace whose tail matches; `acc` holds the reversed group so far. -/
def lazyGroup (acc : Str) : Str → Option Str
  | [] => none
  | c :: rest =>
    if c = rbrace ∧ checkTail rest then some ((rbrace :: acc).reverse)
    else lazyGroup (c :: acc) rest

/-- Continuation of the fenced regex after `` ```(?:json)? ``: the greedy `\s*`
must end exactly at an opening brace, then the lazy group runs. -/
def tryFromWs (r : Str) : Option Str :=
  match r.dropWhile isWs with
  | [] => none
  | c :: rest2 => if c = lbrace then lazyGroup [lbrace] rest2 else none

/-- Match of the fenced regex at one start position: three backticks, the
greedy optional `json` tag (tried first, with backtracking), whitespace, then
the lazy brace group. -/
def matchFencedAt : Str → Option Str
  | b1 :: b2 :: b3 :: rest =>
    if b1 = btick ∧ b2 = btick ∧ b3 = btick then
      match (if "json".toList.isPrefixOf rest then tryFromWs (rest.drop 4) else none) with
      | some g => some g
      | none => tryFromWs rest
    else none
  | _ => none

/-- Leftmost match of `` ```(?:json)?\s*({[\s\S]*?})\s*``` `` via `re.search`. -/
def searchFenced : Str → Option Str
  | [] => none
  | c :: rest =>
    match matchFencedAt (c :: rest) with
    | some g => some g
    | none => searchFenced rest

/-- Model of `extract_json_from_text` (identical in `openai_utils.py` and
`claude_utils.py`): empty or whitespace input yields `{}`; otherwise the fenced
code-block regex, then the first brace-delimited span, then the trimmed text if
it is brace-delimited, and as a last resort a literal error JSON string. -/
def extract_json_from_text (text : Str) : Str :=
  if text.all isWs then emptyObjStr
  else
    match searchFenced text with
    | some g => pyStrip g
    | none =>
      match searchBrace text with
      | some g => pyStrip g
      | none =>
        if (pyStrip text).head? = some lbrace ∧ (pyStrip text).getLast? = some rbrace then
          pyStrip text
        else errorJsonStr

/-- Bounded excerpt of the raw response used in the parse-failure record:
`response_text[:500] + "..."` when longer than 500 characters. -/
def rawExcerpt (response_text : Str) : Str :=
  if response_text.length > 500 then response_text.take 500 ++ "...".toList
  else response_text

/-- Record returned when `json.loads` fails on the cleaned response (both
provider files build it identically). The Python `Error` value carries the
`JSONDecodeError` message after the fixed prefix; the message detail is
abstracted away here. -/
def parseErrorRecord (response_text : Str) : Obj :=
  [("Title".toList, JVal.str "Error parsing model response".toList),
   ("Error".toList, JVal.str "Could not parse response as JSON".toList),
   ("Raw Response".toList, JVal.str (rawExcerpt response_text))]

/-- The shared response-parsing pipeline of both providers: clean the raw text
with `extract_json_from_text`, `json.loads` it, and fall back to the
parse-failure record on `JSONDecodeError`. Every string produced by
`extract_json_from_text` begins with an opening brace, so a successful parse is
always an object; the non-object arm is unreachable and mapped to the
parse-failure record. -/
def parseModelResponse (response_text : Str) : Obj :=
  match jsonLoads (extract_json_from_text response_text) with
  | some (JVal.obj o) => o
  | some _ => parseErrorRecord response_text
  | none => parseErrorRecord response_text

/-- The truncation marker appended to over-long payloads. -/
def truncationMarker : Str := "\n\n[Content truncated due to length]".toList

/-- User content submitted by `call_openai_with_retry`: the payload itself, or
its first 100000 characters plus the marker when longer. -/
def openaiUserContent (paper_content : Str) : Str :=
  if paper_content.length > 100000 then paper_content.take 100000 ++ truncationMarker
  else paper_content

/-- User content submitted by `analyze_paper_with_claude` (same code). -/
def claudeUserContent (paper_content : Str) : Str :=
  if paper_content.length > 100000 then paper_content.take 100000 ++ truncationMarker
  else paper_content

/-- The `RATE_LIMIT_CONFIG` constants of `openai_utils.py`. Wait durations are
not observable in this embedding (time is not modelled). -/
structure RateLimitConfig where
  max_retries : Nat
  min_wait_time : Nat
  max_wait_time : Nat
  exponential_multiplier : Nat
  extra_rate_limit_delay : Nat

/-- Values from `openai_utils.py` lines 13-19. -/
def RATE_LIMIT_CONFIG : RateLimitConfig :=
  { max_retries := 5, min_wait_time := 30, max_wait_time := 60,
    exponential_multiplier := 1, extra_rate_limit_delay := 2 }

/-- Failure classes distinguished by the `except` chain of
`call_openai_with_retry` (in branch order). -/
inductive ErrClass where
  | rateLimit : ErrClass
  | budget : ErrClass
  | server : ErrClass
  | auth : ErrClass
  | other : ErrClass
deriving DecidableEq

/-- Rate-limit markers (first branch). -/
def rateLimitMarkers : List Str :=
  ["rate limit", "too many requests", "429", "quota exceeded",
   "requests per minute", "tokens per minute"].map String.toList

/-- Budget/quota markers (second branch). -/
def budgetMarkers : List Str :=
  ["quota exceeded", "billing", "payment", "insufficient funds",
   "budget exceeded", "usage limit", "account suspended"].map String.toList

/-- Server-error markers (third branch). -/
def serverMarkers : List Str :=
  ["500", "502", "503", "504", "internal server error",
   "bad gateway", "service unavailable", "gateway timeout"].map String.toList

/-- Authentication markers (fourth branch). -/
def authMarkers : List Str :=
  ["unauthorized", "401", "invalid api key", "authentication"].map String.toList

/-- The if/elif classifier of `call_openai_with_retry`: lower-case the message
and test the marker lists in branch order. Every branch ends by re-raising the
exception unchanged; the class only selects logging and an extra sleep. -/
def classifyError (e : Str) : ErrClass :=
  let m := toLowerStr e
  if rateLimitMarkers.any (fun mk => isSubstr mk m) then ErrClass.rateLimit
  else if budgetMarkers.any (fun mk => isSubstr mk m) then ErrClass.budget
  else if serverMarkers.any (fun mk => isSubstr mk m) then ErrClass.server
  else if authMarkers.any (fun mk => isSubstr mk m) then ErrClass.auth
  else ErrClass.other

/-- Semantics of the `tenacity` decorator on `call_openai_with_retry`:
`retry_if_exception_type((Exception,))` retries on EVERY exception,
`stop_after_attempt(n)` stops after the n-th call, `reraise=True` re-raises the
last exception unmodified. `tenacityGo f attempt fuel` runs attempt number
`attempt` with `fuel` further attempts allowed, and returns the final outcome
together with the number of the last attempt performed. -/
def tenacityGo (f : Nat → Except Str Obj) : Nat → Nat → Except Str Obj × Nat
  | attempt, 0 => (f attempt, attempt)
  | attempt, fuel + 1 =>
    match f attempt with
    | Except.ok v => (Except.ok v, attempt)
    | Except.error _ => tenacityGo f (attempt + 1) fuel

/-- Oracle for the OpenAI remote call: attempt number and submitted user
content to raw response text (or a raised exception's message). -/
structure OpenAIEnv where
  remoteCall : Nat → Str → Except Str Str

/-- One attempt of the body of `call_openai_with_retry`: build the (truncated)
user content, perform the remote call, parse the response. An exception is
classified (logging/sleep only) and re-raised unchanged by every branch of the
`except` chain, so it surfaces to the tenacity wrapper as-is. -/
def openaiAttempt (env : OpenAIEnv) (paper_content : Str) (n : Nat) : Except Str Obj :=
  match env.remoteCall n (openaiUserContent paper_content) with
  | Except.error e => Except.error e
  | Except.ok response_text => Except.ok (parseModelResponse response_text)

/-- Model of `analyze_paper_with_openai` = the tenacity-wrapped
`call_openai_with_retry`: up to `max_retries` attempts, starting at attempt 1.
Returns the outcome and the number of attempts performed. -/
def analyze_paper_with_openai (env : OpenAIEnv) (paper_content : Str) :
    Except Str Obj × Nat :=
  tenacityGo (openaiAttempt env paper_content) 1 (RATE_LIMIT_CONFIG.max_retries - 1)

/-- Oracle for the Anthropic remote call: submitted user content to raw
response text (or a raised exception's message). -/
structure ClaudeEnv where
  remoteCall : Str → Except Str Str

/-- The record returned by the outer `except` of `analyze_paper_with_claude`. -/
def claudeErrorRecord (e : Str) : Obj :=
  [("Title".toList, JVal.str "Error analyzing document".toList),
   ("Error".toList, JVal.str e)]

/-- Model of `analyze_paper_with_claude`: one remote call, no retry wrapper;
any exception is converted to an error record. Returns the record and the
number of remote attempts performed (always one). -/
def analyze_paper_with_claude (env : ClaudeEnv) (paper_content : Str) : Obj × Nat :=
  match env.remoteCall (claudeUserContent paper_content) with
  | Except.error e => (claudeErrorRecord e, 1)
  | Except.ok response_text => (parseModelResponse response_text, 1)

/-- Provider selected at `AnalysisService` construction. -/
inductive Provider where
  | openai : Provider
  | anthropic : Provider
deriving DecidableEq

/-- Model of `AnalysisService._call_ai_analyzer`: dispatch on the provider
string. The Claude path never raises, so its outcome is always `Except.ok`. -/
def callAiAnalyzer (provider : Provider) (oenv : OpenAIEnv) (cenv : ClaudeEnv)
    (content : Str) : Except Str Obj × Nat :=
  match provider with
  | Provider.openai => analyze_paper_with_openai oenv content
  | Provider.anthropic =>
    let r := analyze_paper_with_claude cenv content
    (Except.ok r.1, r.2)

/-- Remainder after a valid `<[^>]+>` tag given the text after `<` and at least
one non-`>` character already seen. -/
def tagSplitAfter : Str → Option Str
  | [] => none
  | c :: rest => if c = '>' then some rest else tagSplitAfter rest

/-- Try to match `<[^>]+>` given the text after `<`: at least one non-`>`
character, then `>`; returns the remainder after the tag. -/
def tagSplit : Str → Option Str
  | [] => none
  | c :: rest => if c = '>' then none else tagSplitAfter rest

/-- Non-overlapping leftmost replacement of `<[^>]+>` by a space
(`re.sub(r'<[^>]+>', ' ', xml)`), fuel-indexed for structural recursion. -/
def stripTagsAux : Nat → Str → Str
  | 0, s => s
  | _, [] => []
  | fuel + 1, c :: rest =>
    if c = '<' then
      match tagSplit rest with
      | some after => ' ' :: stripTagsAux fuel after
      | none => c :: stripTagsAux fuel rest
    else c :: stripTagsAux fuel rest

/-- Replacement of every whitespace run by a single space
(`re.sub(r'\s+', ' ', text)`). -/
def collapseWsAux : Bool → Str → Str
  | _, [] => []
  | prevWs, c :: rest =>
    if isWs c then
      if prevWs then collapseWsAux true rest
      else ' ' :: collapseWsAux true rest
    else c :: collapseWsAux false rest

/-- The text-extraction step of `fetch_full_text_from_pmc`: strip tags,
collapse whitespace, strip. -/
def stripTags (xml : Str) : Str :=
  pyStrip (collapseWsAux false (stripTagsAux (xml.length + 1) xml))

/-- Oracles for the external calls of `fetch_full_text_from_pmc`: the
`elink` PMC-id lookup (`none` when the article has no PMC link), the `efetch`
document download, and the `ElementTree` extraction of the embedded
`article-id pub-id-type="pmid"` field (`none` when the tag is absent). -/
structure PmcEnv where
  elink : Except Str (Option Str)
  efetch : Str → Except Str Str
  parseEmbeddedPmid : Str → Except Str (Option Str)

/-- Model of `fetch_full_text_from_pmc`: every failure path returns `None`;
when an embedded PMID is found it is cross-checked (after stripping) against
the requested PMID and the document is discarded on mismatch. -/
def fetch_full_text_from_pmc (env : PmcEnv) (pmid : Str) : Option Str :=
  match env.elink with
  | Except.error _ => none
  | Except.ok none => none
  | Except.ok (some pmcId) =>
    match env.efetch pmcId with
    | Except.error _ => none
    | Except.ok xml =>
      match env.parseEmbeddedPmid xml with
      | Except.error _ => none
      | Except.ok (some found) =>
        if pyStrip found ≠ pyStrip pmid then none else some (stripTags xml)
      | Except.ok none => some (stripTags xml)

/-- Provenance of a full-text document inside `_try_full_text_analysis`. -/
inductive FTSource where
  | pmc : FTSource
  | doi : FTSource
deriving DecidableEq

/-- Python truthiness of an optional string (`None` and `""` are falsy). -/
def truthyOpt : Option Str → Bool
  | some t => !t.isEmpty
  | none => false

/-- The DOI extraction of `_try_full_text_analysis`: if the link is truthy and
contains `doi.org`, split on `/` and join the last two segments; otherwise the
`doi` variable stays `None`. -/
def doiOf (doi_link : Str) : Option Str :=
  if !doi_link.isEmpty && isSubstr "doi.org".toList doi_link then
    let parts := pySplitSlash doi_link
    if parts.length ≥ 2 then some (joinSlash (parts.drop (parts.length - 2)))
    else none
  else none

/-- Stand-in for the message of the `TypeError` raised by
`'doi.org' in doi_link` on a truthy non-container value (the exact Python
message text is abstracted). -/
def doiTypeErrorMsg : Str := "TypeError: argument of type is not iterable".toList

/-- Stand-in for the message of the `AttributeError` raised by
`doi_link.split('/')` on a list or dict value (abstracted as above). -/
def doiAttrErrorMsg : Str := "AttributeError: object has no attribute split".toList

/-- The DOI-extraction step of `_try_full_text_analysis` on the RAW
`Full Text Link` value, outside any `try`: a falsy value is skipped; a truthy
string goes through `doiOf`; a truthy bool/number makes `'doi.org' in
doi_link` raise `TypeError`; a non-empty list/dict passes the membership test
only when it contains/keys the string `doi.org`, and then `doi_link.split`
raises `AttributeError`. A raised error propagates to `_analyze_single_paper`. -/
def doiOfV : JVal → Except Str (Option Str)
  | JVal.str s => Except.ok (doiOf s)
  | JVal.null => Except.ok none
  | JVal.bool b => if b then Except.error doiTypeErrorMsg else Except.ok none
  | JVal.num n => if n = 0 then Except.ok none else Except.error doiTypeErrorMsg
  | JVal.arr xs =>
    if xs.isEmpty then Except.ok none
    else if xs.any (fun v => jvalEqStr v "doi.org".toList) then Except.error doiAttrErrorMsg
    else Except.ok none
  | JVal.obj kvs =>
    if kvs.isEmpty then Except.ok none
    else if hasKey kvs "doi.org".toList then Except.error doiAttrErrorMsg
    else Except.ok none

/-- Per-paper oracles for `_analyze_single_paper`: the abstract-based analyzer
outcome, the two full-text fetchers (an `Except.error` is an exception caught
by the surrounding `try`; the PMC fetcher receives the raw PMID value), and
the analyzer applied to fetched full text. -/
structure PaperEnv where
  abstractCall : Except Str Obj
  fetchPMC : JVal → Except Str (Option Str)
  fetchDOI : Str → Except Str (Option Str)
  ftAnalyzer : Str → Except Str Obj

/-- The full-text/source chain of `_try_full_text_analysis`: the mutable
`full_text` / `source` pair after the PMC attempt (guarded by
`pmid and pmid not in ('NA', 'N/A')` on the RAW value: a truthy non-string
PMID also triggers the attempt, since `in`-tuple comparison is mere equality)
and the DOI attempt (only when `full_text` is still falsy and a DOI was
derived). -/
def resolveFullText (env : PaperEnv) (pmid : JVal) (doi : Option Str) :
    Option Str × Option FTSource :=
  let afterPmc : Option Str × Option FTSource :=
    if jvalTruthy pmid && !jvalEqStr pmid "NA".toList && !jvalEqStr pmid "N/A".toList then
      match env.fetchPMC pmid with
      | Except.ok v => (v, if truthyOpt v then some FTSource.pmc else none)
      | Except.error _ => (none, none)
    else (none, none)
  let doiTruthy : Bool := match doi with
    | some d => !d.isEmpty
    | none => false
  if !truthyOpt afterPmc.1 && doiTruthy then
    match env.fetchDOI (doi.getD []) with
    | Except.ok v =>
      (v, if truthyOpt v then some FTSource.doi else afterPmc.2)
    | Except.error _ => afterPmc
  else afterPmc

/-- Rendering of the `source` variable inside `f"Full Text ({source})"`. -/
def ftSourceName : Option FTSource → Str
  | some FTSource.pmc => "PMC".toList
  | some FTSource.doi => "DOI".toList
  | none => "None".toList

/-- The three dict assignments performed on a successful full-text analysis
result before it is returned (the raw PMID and link values are stored back). -/
def decorateFT (fr : Obj) (pmid doi_link : JVal) (src : Option FTSource) : Obj :=
  dictSet
    (dictSet (dictSet fr "PMID".toList pmid)
      "Full Text Link".toList doi_link)
    "Analysis Source".toList
    (JVal.str ("Full Text (".toList ++ ftSourceName src ++ ")".toList))

/-- Tag for one `_call_ai_analyzer` invocation in the per-paper call trace. -/
inductive AICall where
  | abstract : AICall
  | fullText : AICall
deriving DecidableEq

/-- The dict key `PMID`. -/
def pmidKey : Str := "PMID".toList

/-- The dict key `Full Text Link`. -/
def fullTextLinkKey : Str := "Full Text Link".toList

/-- The default string `NA`. -/
def naStr : Str := "NA".toList

/-- Model of `_try_full_text_analysis`, instrumented with the trace of
analyzer invocations: reads the raw PMID and link values from the abstract
result, runs the un-guarded DOI extraction (whose `TypeError` /
`AttributeError` on a truthy non-string link PROPAGATES, as `Except.error`),
resolves full text through the PMC/DOI chain, returns `ok None` if no truthy
text was found, otherwise analyzes it (an analyzer exception is caught and
yields `ok None`) and decorates the record. -/
def tryFullTextAnalysisT (env : PaperEnv) (abstract_result : Obj) :
    Except Str (Option Obj) × List AICall :=
  let pmid := pyGet abstract_result pmidKey (JVal.str naStr)
  let doi_link := pyGet abstract_result fullTextLinkKey (JVal.str naStr)
  match doiOfV doi_link with
  | Except.error e => (Except.error e, [])
  | Except.ok doi =>
    let ftsrc := resolveFullText env pmid doi
    match ftsrc.1 with
    | none => (Except.ok none, [])
    | some t =>
      if t.isEmpty then (Except.ok none, [])
      else
        match env.ftAnalyzer t with
        | Except.error _ => (Except.ok none, [AICall.fullText])
        | Except.ok fr =>
          (Except.ok (some (decorateFT fr pmid doi_link ftsrc.2)), [AICall.fullText])

/-- Result component of `_try_full_text_analysis` (`Except.error` is an
exception escaping it). -/
def tryFullTextAnalysis (env : PaperEnv) (abstract_result : Obj) :
    Except Str (Option Obj) :=
  (tryFullTextAnalysisT env abstract_result).1

/-- The record returned by the `except` arm of `_analyze_single_paper`. -/
def failedPaperRecord (e : Str) : Obj :=
  [("Title".toList, JVal.str "Error analyzing paper".toList),
   ("Error".toList, JVal.str e),
   ("Analysis Source".toList, JVal.str "Failed".toList)]

/-- Model of `_analyze_single_paper`, instrumented with the analyzer-call
trace: abstract analysis first (an exception yields the failure record), then,
when `use_full_text` is set, the full-text attempt whose success REPLACES the
abstract result and whose `None` outcome retains it; an exception escaping
`_try_full_text_analysis` (the DOI-extraction `TypeError` path) is caught by
the surrounding `except` and yields the failure record instead. -/
def analyzeSinglePaperT (use_full_text : Bool) (env : PaperEnv) :
    Obj × List AICall :=
  match env.abstractCall with
  | Except.error e => (failedPaperRecord e, [AICall.abstract])
  | Except.ok r0 =>
    let r1 := dictSet r0 "Analysis Source".toList (JVal.str "Abstract".toList)
    if use_full_text then
      let ft := tryFullTextAnalysisT env r1
      (match ft.1 with
       | Except.error e => failedPaperRecord e
       | Except.ok (some fr) => fr
       | Except.ok none => r1,
       AICall.abstract :: ft.2)
    else (r1, [AICall.abstract])

/-- Result component of `_analyze_single_paper`. -/
def analyzeSinglePaper (use_full_text : Bool) (env : PaperEnv) : Obj :=
  (analyzeSinglePaperT use_full_text env).1

/-- Model of the result-accumulation loop of `analyze_pubmed_papers`: each
paper's result is appended when truthy (`if result:`). -/
def analyze_pubmed_papers (use_full_text : Bool) (papers : List PaperEnv) :
    List Obj :=
  papers.foldl
    (fun results p =>
      let result := analyzeSinglePaper use_full_text p
      if result.isEmpty then results else results ++ [result])
    []

/-- Per-file oracles for `analyze_pdf_files`: the declared file name, the
`process_file` text-extraction outcome, and the analyzer on the extracted
content. -/
structure PdfEnv where
  name : Str
  processFile : Except Str Str
  analyzer : Str → Except Str Obj

/-- The record appended by the `except` arm of the PDF loop. -/
def pdfErrorRecord (name e : Str) : Obj :=
  [("Title".toList, JVal.str ("Error processing ".toList ++ name)),
   ("Filename".toList, JVal.str name),
   ("Error".toList, JVal.str e)]

/-- One iteration of the PDF loop: extract text, analyze, set `Filename`; any
exception in these steps is caught and converted to the error record. -/
def pdfItemResult (f : PdfEnv) : Obj :=
  match f.processFile with
  | Except.error e => pdfErrorRecord f.name e
  | Except.ok content =>
    match f.analyzer content with
    | Except.error e => pdfErrorRecord f.name e
    | Except.ok r => dictSet r "Filename".toList (JVal.str f.name)

/-- Model of the result-accumulation loop of `analyze_pdf_files`: both arms of
the per-item `try` append exactly one record. -/
def analyze_pdf_files (files : List PdfEnv) : List Obj :=
  files.foldl (fun results f => results ++ [pdfItemResult f]) []

/-- The fixed field schema enumerated in the extraction prompt
(`prompts.py`). -/
def schemaFields : List Str :=
  ["Title", "PMID", "Full Text Link", "Subject of Study", "Disease State",
   "Number of Subjects Studied", "Type of Study", "Study Design",
   "Intervention", "Intervention Dose", "Intervention Dosage Form", "Control",
   "Primary Endpoint", "Primary Endpoint Result", "Secondary Endpoints",
   "Safety Endpoints", "Results Available", "Primary Endpoint Met",
   "Statistical Significance", "Clinical Significance", "Conclusion",
   "Main Author", "Other Authors", "Journal Name", "Date of Publication",
   "Error"].map String.toList

/-- The synthetic error record: `json.loads` of the last-resort JSON string of
`extract_json_from_text`. -/
def syntheticErrorObj : Obj :=
  [("Error".toList, JVal.str "Could not extract valid JSON from model response".toList),
   ("Title".toList, JVal.str "Error Processing Document".toList)]

/-- The canonical fenced code block prefix: three backticks, the `json` tag and
a newline. -/
def fencedPre : Str := [btick, btick, btick, 'j', 's', 'o', 'n', Char.ofNat 10]

/-- The canonical fenced code block suffix: a newline and three backticks. -/
def fencedPost : Str := [Char.ofNat 10, btick, btick, btick]

/-- A payload wrapped in a fenced code block tagged `json`. -/
def fencedWrap (p : Str) : Str := fencedPre ++ p ++ fencedPost

/-- A JSON payload with a nested object. -/
def nestedPayload : Str := jobjStr ("\"a\":".toList ++ jobjStr "\"b\":1".toList)

lemma dictSet_ne_nil (o : Obj) (k : Str) (v : JVal) : dictSet o k v ≠ [] := by
  unfold dictSet
  split
  · next h =>
    intro hmap
    rw [List.map_eq_nil_iff] at hmap
    subst hmap
    simp at h
  · intro h
    simp at h

lemma tryFullTextAnalysis_some_ne_nil {env : PaperEnv} {r1 fr : Obj}
    (h : tryFullTextAnalysis env r1 = Except.ok (some fr)) : fr ≠ [] := by
  unfold tryFullTextAnalysis tryFullTextAnalysisT at h
  simp only at h
  repeat' split at h
  all_goals simp_all
  all_goals exact fun hnil => dictSet_ne_nil _ _ _ (h ▸ hnil)

lemma analyzeSinglePaper_ne_nil (u : Bool) (env : PaperEnv) :
    analyzeSinglePaper u env ≠ [] := by
  unfold analyzeSinglePaper analyzeSinglePaperT
  split
  · simp [failedPaperRecord]
  · simp only
    split
    · rcases hft : (tryFullTextAnalysisT env _).1 with e | ft
      · simp [hft, failedPaperRecord]
      · rcases ft with _ | fr
        · simp [hft]
          exact dictSet_ne_nil _ _ _
        · simp [hft]
          exact tryFullTextAnalysis_some_ne_nil
            (by simpa [tryFullTextAnalysis] using hft)
    · exact dictSet_ne_nil _ _ _

lemma foldl_guard_append_eq_map (g : PaperEnv → Obj) (hg : ∀ p, g p ≠ []) :
    ∀ (l : List PaperEnv) (acc : List Obj),
      l.foldl (fun rs p => let r := g p; if r.isEmpty then rs else rs ++ [r]) acc =
        acc ++ l.map g
  | [], acc => by simp
  | p :: l, acc => by
    have ih := foldl_guard_append_eq_map g hg l (acc ++ [g p])
    rcases hgp : g p with _ | ⟨kv, r⟩
    · exact absurd hgp (hg p)
    · rw [hgp] at ih
      simp [hgp, ih]

lemma foldl_snoc_eq_map (g : PdfEnv → Obj) :
    ∀ (l : List PdfEnv) (acc : List Obj),
      l.foldl (fun rs f => rs ++ [g f]) acc = acc ++ l.map g
  | [], acc => by simp
  | f :: l, acc => by
    simp only [List.foldl_cons]
    rw [foldl_snoc_eq_map g l (acc ++ [g f])]
    simp

/-- C1: a completed job over `n` input sources (PubMed records or PDF files)
yields exactly `n` results, position `i` of the output being the (possibly
synthesized-error) record of input `i`: both loops are the pointwise map of
the per-item analysis over the input list, so per-item failures are placed at
their source's position, never omitted. -/
theorem job_results_align_with_inputs (u : Bool) (papers : List PaperEnv)
    (files : List PdfEnv) :
    analyze_pubmed_papers u papers = papers.map (analyzeSinglePaper u) ∧
    (analyze_pubmed_papers u papers).length = papers.length ∧
    analyze_pdf_files files = files.map pdfItemResult ∧
    (analyze_pdf_files files).length = files.length := by
  have h1 : analyze_pubmed_papers u papers = papers.map (analyzeSinglePaper u) := by
    unfold analyze_pubmed_papers
    simpa using foldl_guard_append_eq_map (analyzeSinglePaper u)
      (analyzeSinglePaper_ne_nil u) papers []
  have h2 : analyze_pdf_files files = files.map pdfItemResult := by
    unfold analyze_pdf_files
    simpa using foldl_snoc_eq_map pdfItemResult files []
  exact ⟨h1, by rw [h1]; simp, h2, by rw [h2]; simp⟩

/-- C9: for every content payload the submission to either provider equals the
payload itself up to the 100000-character cap and otherwise the first 100000
characters followed by the fixed truncation marker; both providers run the
same (deterministic) transformation. -/
theorem user_content_truncation (c : Str) :
    openaiUserContent c =
      (if c.length > 100000 then c.take 100000 ++ truncationMarker else c) ∧
    claudeUserContent c = openaiUserContent c := ⟨rfl, rfl⟩

/-- C5: a call that raises a rate-limit-classified error on every attempt is
attempted exactly `max_retries = 5` times, after which the last error is
re-raised to the caller unmodified. -/
theorem rate_limited_call_attempts_ceiling (env : OpenAIEnv) (content : Str)
    (errs : Nat → Str)
    (h1 : ∀ n c, env.remoteCall n c = Except.error (errs n))
    (h2 : ∀ n, classifyError (errs n) = ErrClass.rateLimit) :
    analyze_paper_with_openai env content = (Except.error (errs 5), 5) := by
  have ha : ∀ n, openaiAttempt env content n = Except.error (errs n) := by
    intro n
    unfold openaiAttempt
    rw [h1]
  show tenacityGo (openaiAttempt env content) 1 (RATE_LIMIT_CONFIG.max_retries - 1) =
    (Except.error (errs 5), 5)
  simp [RATE_LIMIT_CONFIG, tenacityGo, ha]

/-- Witness for C5 at a concrete always-rate-limited call. -/
theorem rate_limited_call_attempts_ceiling_witness :
    classifyError "Error 429: rate limit reached".toList = ErrClass.rateLimit ∧
    analyze_paper_with_openai ⟨fun _ _ => Except.error "Error 429: rate limit reached".toList⟩ [] =
      (Except.error "Error 429: rate limit reached".toList, 5) :=
  ⟨by decide,
   rate_limited_call_attempts_ceiling
     ⟨fun _ _ => Except.error "Error 429: rate limit reached".toList⟩ []
     (fun _ => "Error 429: rate limit reached".toList)
     (fun _ _ => rfl)
     (fun _ =>
       (by decide :
         classifyError "Error 429: rate limit reached".toList = ErrClass.rateLimit))⟩

/-- C2 (code behavior at the failing input): a call that always raises an
authentication-classified error ("401 unauthorized") is attempted 5 times, not
once. The `except` chain of `call_openai_with_retry` re-raises the error into
the `tenacity` wrapper, whose `retry_if_exception_type((Exception,))` retries
EVERY exception up to `stop_after_attempt(5)`, so the comments' "don't retry"
intent (and the spec) is not what the code does. -/
theorem auth_error_is_retried_five_times :
    classifyError "401 unauthorized".toList = ErrClass.auth ∧
    analyze_paper_with_openai
      ⟨fun _ _ => Except.error "401 unauthorized".toList⟩ [] =
      (Except.error "401 unauthorized".toList, 5) :=
  ⟨by decide, rfl⟩

/-- C10: the Claude analysis path performs exactly one remote attempt with no
retry wrapper; a raised exception is converted into the Title/Error record and,
through `_call_ai_analyzer`, never propagates (the dispatch always returns
`Except.ok`). -/
theorem claude_path_total_single_attempt (cenv : ClaudeEnv) (oenv : OpenAIEnv)
    (content : Str) :
    (analyze_paper_with_claude cenv content).2 = 1 ∧
    (∀ e, cenv.remoteCall (claudeUserContent content) = Except.error e →
      (analyze_paper_with_claude cenv content).1 = claudeErrorRecord e ∧
      hasKey (claudeErrorRecord e) "Title".toList = true ∧
      hasKey (claudeErrorRecord e) "Error".toList = true) ∧
    (∀ t, cenv.remoteCall (claudeUserContent content) = Except.ok t →
      (analyze_paper_with_claude cenv content).1 = parseModelResponse t) ∧
    callAiAnalyzer Provider.anthropic oenv cenv content =
      (Except.ok (analyze_paper_with_claude cenv content).1, 1) := by
  refine ⟨?_, ?_, ?_, ?_⟩
  · unfold analyze_paper_with_claude
    rcases cenv.remoteCall (claudeUserContent content) with _ | _ <;> rfl
  · intro e he
    unfold analyze_paper_with_claude
    rw [he]
    exact ⟨rfl, rfl, rfl⟩
  · intro t ht
    unfold analyze_paper_with_claude
    rw [ht]
  · unfold callAiAnalyzer analyze_paper_with_claude
    rcases cenv.remoteCall (claudeUserContent content) with _ | _ <;> rfl

/-- Witness for C10 at a concrete failing and a concrete succeeding call. -/
theorem claude_path_total_single_attempt_witness :
    (analyze_paper_with_claude ⟨fun _ => Except.error "billing hard failure".toList⟩ []).1 =
      claudeErrorRecord "billing hard failure".toList ∧
    (analyze_paper_with_claude ⟨fun _ => Except.error "billing hard failure".toList⟩ []).2 = 1 ∧
    (analyze_paper_with_claude ⟨fun _ => Except.ok []⟩ []).1 = parseModelResponse [] :=
  ⟨((claude_path_total_single_attempt
      ⟨fun _ => Except.error "billing hard failure".toList⟩
      ⟨fun _ _ => Except.error []⟩ []).2.1
      "billing hard failure".toList rfl).1,
   (claude_path_total_single_attempt
      ⟨fun _ => Except.error "billing hard failure".toList⟩
      ⟨fun _ _ => Except.error []⟩ []).1,
   (claude_path_total_single_attempt ⟨fun _ => Except.ok []⟩
      ⟨fun _ _ => Except.error []⟩ []).2.2.1 [] rfl⟩

/-- The assignment `result['Analysis Source'] = "Abstract"` performed on every
successful abstract analysis. -/
def withAbstractSource (r0 : Obj) : Obj :=
  dictSet r0 "Analysis Source".toList (JVal.str "Abstract".toList)

/-- C8 (counterexample): when the abstract-derived record carries a truthy
non-string `Full Text Link` value, the abstract record is NOT retained:
`'doi.org' in doi_link` raises `TypeError`, which escapes
`_try_full_text_analysis` and is converted by `_analyze_single_paper` into the
failure record, so neither a full-text record nor the unchanged abstract
record is returned. -/
theorem nonstring_link_replaces_abstract_with_failure :
    analyzeSinglePaper true
      ⟨Except.ok [(fullTextLinkKey, JVal.num 5)],
       fun _ => Except.ok none, fun _ => Except.ok none, fun _ => Except.ok []⟩ =
      failedPaperRecord doiTypeErrorMsg ∧
    analyzeSinglePaper true
      ⟨Except.ok [(fullTextLinkKey, JVal.num 5)],
       fun _ => Except.ok none, fun _ => Except.ok none, fun _ => Except.ok []⟩ ≠
      withAbstractSource [(fullTextLinkKey, JVal.num 5)] := by
  refine ⟨rfl, ?_⟩
  intro h
  have hk : (false : Bool) = true :=
    congrArg (fun o => hasKey o fullTextLinkKey) h
  cases hk

/-- C8 (amended): for a bibliographic source with full text enabled, the
abstract analysis happens first and the full-text analyzer call (if any)
strictly after it in the call trace; the full-text record replaces the
abstract record exactly when resolution yields truthy text AND the analyzer
returns without raising; the abstract record is returned unchanged when the
full-text attempt yields nothing — UNLESS the un-guarded DOI-extraction step
raises (truthy non-string link), in which case the failure record replaces
the abstract record. -/
theorem abstract_first_fulltext_promote (env : PaperEnv) (r0 : Obj)
    (h : env.abstractCall = Except.ok r0) :
    (analyzeSinglePaperT true env).2 =
      AICall.abstract :: (tryFullTextAnalysisT env (withAbstractSource r0)).2 ∧
    (tryFullTextAnalysis env (withAbstractSource r0) = Except.ok none →
      analyzeSinglePaper true env = withAbstractSource r0) ∧
    (∀ fr, tryFullTextAnalysis env (withAbstractSource r0) = Except.ok (some fr) →
      analyzeSinglePaper true env = fr) ∧
    (∀ e, tryFullTextAnalysis env (withAbstractSource r0) = Except.error e →
      analyzeSinglePaper true env = failedPaperRecord e) ∧
    (∀ e, doiOfV (pyGet (withAbstractSource r0) fullTextLinkKey (JVal.str naStr)) =
        Except.error e →
      tryFullTextAnalysis env (withAbstractSource r0) = Except.error e) ∧
    (∀ doi, doiOfV (pyGet (withAbstractSource r0) fullTextLinkKey (JVal.str naStr)) =
        Except.ok doi →
      (truthyOpt (resolveFullText env
          (pyGet (withAbstractSource r0) pmidKey (JVal.str naStr)) doi).1 = false →
        tryFullTextAnalysis env (withAbstractSource r0) = Except.ok none) ∧
      (∀ t, (resolveFullText env
          (pyGet (withAbstractSource r0) pmidKey (JVal.str naStr)) doi).1 = some t →
        t.isEmpty = false →
        (∀ e2, env.ftAnalyzer t = Except.error e2 →
          tryFullTextAnalysis env (withAbstractSource r0) = Except.ok none) ∧
        (∀ fr, env.ftAnalyzer t = Except.ok fr →
          tryFullTextAnalysis env (withAbstractSource r0) =
            Except.ok (some (decorateFT fr
              (pyGet (withAbstractSource r0) pmidKey (JVal.str naStr))
              (pyGet (withAbstractSource r0) fullTextLinkKey (JVal.str naStr))
              (resolveFullText env
                (pyGet (withAbstractSource r0) pmidKey (JVal.str naStr)) doi).2))))) := by
  refine ⟨?_, ?_, ?_, ?_, ?_, ?_⟩
  · unfold analyzeSinglePaperT
    rw [h]
    rfl
  · intro hft
    unfold tryFullTextAnalysis at hft
    unfold withAbstractSource at hft ⊢
    unfold analyzeSinglePaper analyzeSinglePaperT
    rw [h]
    simp only [if_true]
    rw [hft]
  · intro fr hft
    unfold tryFullTextAnalysis at hft
    unfold withAbstractSource at hft
    unfold analyzeSinglePaper analyzeSinglePaperT
    rw [h]
    simp only [if_true]
    rw [hft]
  · intro e hft
    unfold tryFullTextAnalysis at hft
    unfold withAbstractSource at hft
    unfold analyzeSinglePaper analyzeSinglePaperT
    rw [h]
    simp only [if_true]
    rw [hft]
  · intro e he
    unfold tryFullTextAnalysis tryFullTextAnalysisT
    simp only
    simp [he]
  · intro doi hdoi
    constructor
    · intro hres
      unfold tryFullTextAnalysis tryFullTextAnalysisT
      simp only
      rcases hr : (resolveFullText env
          (pyGet (withAbstractSource r0) pmidKey (JVal.str naStr)) doi).1
        with _ | t
      · simp [hdoi, hr]
      · rw [hr] at hres
        unfold truthyOpt at hres
        simp only [Bool.not_eq_true] at hres
        simp [hdoi, hr, Bool.not_eq_true] at hres ⊢
        simp [hres]
    · intro t hr hne
      rcases t with _ | ⟨c, ts⟩
      · simp at hne
      constructor
      · intro e2 hae
        unfold tryFullTextAnalysis tryFullTextAnalysisT
        simp only
        simp [hdoi, hr, hae]
      · intro fr hok
        unfold tryFullTextAnalysis tryFullTextAnalysisT
        simp only
        simp [hdoi, hr, hok]

/-- Witness for the amended C8 at a concrete paper whose full text resolves
via PMC and whose full-text analysis succeeds, so the full-text record
replaces the abstract record and the call trace is abstract-then-fulltext. -/
theorem abstract_first_fulltext_promote_witness :
    analyzeSinglePaper true
      ⟨Except.ok [(pmidKey, JVal.str "12".toList)],
       fun _ => Except.ok (some "FT".toList),
       fun _ => Except.error [],
       fun _ => Except.ok []⟩ =
      decorateFT [] (JVal.str "12".toList) (JVal.str naStr) (some FTSource.pmc) ∧
    (analyzeSinglePaperT true
      ⟨Except.ok [(pmidKey, JVal.str "12".toList)],
       fun _ => Except.ok (some "FT".toList),
       fun _ => Except.error [],
       fun _ => Except.ok []⟩).2 = [AICall.abstract, AICall.fullText] := by
  have T := abstract_first_fulltext_promote
    ⟨Except.ok [(pmidKey, JVal.str "12".toList)],
     fun _ => Except.ok (some "FT".toList),
     fun _ => Except.error [],
     fun _ => Except.ok []⟩
    [(pmidKey, JVal.str "12".toList)] rfl
  refine ⟨?_, ?_⟩
  · exact T.2.2.1 _
      (((T.2.2.2.2.2 none rfl).2 "FT".toList rfl rfl).2 [] rfl)
  · rw [T.1]
    rfl

lemma resolveFullText_pmcNone (env : PaperEnv) (pmid : JVal) (doi : Option Str)
    (hp : env.fetchPMC pmid = Except.ok none) :
    (resolveFullText env pmid doi).2 ≠ some FTSource.pmc ∧
    (∀ t, (resolveFullText env pmid doi).1 = some t → t.isEmpty = false →
      (resolveFullText env pmid doi).2 = some FTSource.doi) := by
  unfold resolveFullText
  simp only [hp]
  simp only [truthyOpt, Bool.not_false, ite_self]
  rcases doi with _ | d
  · simp
  · rcases hd : d.isEmpty with _ | _
    · simp only [Option.getD_some]
      rcases hdoi : env.fetchDOI d with v | v
      · simp_all
      · rcases v with _ | t2
        · simp_all
        · rcases ht2 : t2.isEmpty with _ | _ <;> simp_all
    · simp_all

/-- C7: when the PMC document's embedded PMID differs (after stripping) from
the requested PMID, `fetch_full_text_from_pmc` discards the document and
returns `None`; consequently the resolver chain never tags a result as
PMC-sourced, and any truthy resolved text comes from the DOI source (or the
caller keeps the abstract-based record). -/
theorem pmc_identifier_mismatch_discards_document (penv : PmcEnv)
    (pmid pmcid xml found : Str)
    (h1 : penv.elink = Except.ok (some pmcid))
    (h2 : penv.efetch pmcid = Except.ok xml)
    (h3 : penv.parseEmbeddedPmid xml = Except.ok (some found))
    (h4 : pyStrip found ≠ pyStrip pmid)
    (env : PaperEnv)
    (h5 : env.fetchPMC (JVal.str pmid) = Except.ok (fetch_full_text_from_pmc penv pmid)) :
    fetch_full_text_from_pmc penv pmid = none ∧
    (∀ doi, (resolveFullText env (JVal.str pmid) doi).2 ≠ some FTSource.pmc) ∧
    (∀ doi t, (resolveFullText env (JVal.str pmid) doi).1 = some t → t.isEmpty = false →
      (resolveFullText env (JVal.str pmid) doi).2 = some FTSource.doi) := by
  have hnone : fetch_full_text_from_pmc penv pmid = none := by
    unfold fetch_full_text_from_pmc
    simp [h1, h2, h3, h4]
  rw [hnone] at h5
  exact ⟨hnone, fun doi => (resolveFullText_pmcNone env (JVal.str pmid) doi h5).1,
    fun doi => (resolveFullText_pmcNone env (JVal.str pmid) doi h5).2⟩

/-- Witness for C7 at a concrete mismatching PMC document. -/
theorem pmc_identifier_mismatch_discards_document_witness :
    fetch_full_text_from_pmc
      ⟨Except.ok (some "7".toList), fun _ => Except.ok "xml".toList,
       fun _ => Except.ok (some "999".toList)⟩ "111".toList = none ∧
    (resolveFullText
      ⟨Except.ok [],
       fun v => match v with
         | JVal.str s => Except.ok (fetch_full_text_from_pmc
             ⟨Except.ok (some "7".toList), fun _ => Except.ok "xml".toList,
              fun _ => Except.ok (some "999".toList)⟩ s)
         | _ => Except.ok none,
       fun _ => Except.error [],
       fun _ => Except.ok []⟩ (JVal.str "111".toList) none).2 ≠ some FTSource.pmc := by
  have T := pmc_identifier_mismatch_discards_document
    ⟨Except.ok (some "7".toList), fun _ => Except.ok "xml".toList,
     fun _ => Except.ok (some "999".toList)⟩
    "111".toList "7".toList "xml".toList "999".toList rfl rfl rfl
    (by decide)
    ⟨Except.ok [],
     fun v => match v with
       | JVal.str s => Except.ok (fetch_full_text_from_pmc
           ⟨Except.ok (some "7".toList), fun _ => Except.ok "xml".toList,
            fun _ => Except.ok (some "999".toList)⟩ s)
       | _ => Except.ok none,
     fun _ => Except.error [],
     fun _ => Except.ok []⟩ rfl
  exact ⟨T.1, T.2.1 none⟩

/-- C3 (counterexample): a successful, non-error analysis result need not
contain every schema field. The model response consisting solely of a Title
binding parses successfully, carries no `Error` key, yet lacks the schema
field `PMID` (and all others): the code returns `json.loads`' dict as-is and
never fills in missing schema fields. -/
theorem successful_result_missing_schema_field :
    parseModelResponse (jobjStr "\"Title\": \"X\"".toList) =
      [("Title".toList, JVal.str "X".toList)] ∧
    hasKey (parseModelResponse (jobjStr "\"Title\": \"X\"".toList)) "Error".toList = false ∧
    pmidKey ∈ schemaFields ∧
    hasKey (parseModelResponse (jobjStr "\"Title\": \"X\"".toList)) pmidKey = false :=
  ⟨rfl, rfl, by decide, rfl⟩

/-- C3 (amended): a successful analysis returns exactly the mapping parsed
from the extracted JSON span — fields are present precisely when the model's
JSON contains them; the parser performs no totalization over the schema. -/
theorem successful_result_is_parsed_object (t : Str) (o : Obj)
    (h : jsonLoads (extract_json_from_text t) = some (JVal.obj o)) :
    parseModelResponse t = o := by
  unfold parseModelResponse
  rw [h]

/-- Witness for the amended C3 at a concrete successful response. -/
theorem successful_result_is_parsed_object_witness :
    jsonLoads (extract_json_from_text (jobjStr "\"Title\": \"X\"".toList)) =
      some (JVal.obj [("Title".toList, JVal.str "X".toList)]) ∧
    parseModelResponse (jobjStr "\"Title\": \"X\"".toList) =
      [("Title".toList, JVal.str "X".toList)] :=
  ⟨rfl, successful_result_is_parsed_object (jobjStr "\"Title\": \"X\"".toList)
    [("Title".toList, JVal.str "X".toList)] rfl⟩

/-- A brace-delimited span occurs in the text: an opening brace with a closing
brace somewhere after it. -/
def BracePair (t : Str) : Prop :=
  ∃ l1 l2 l3 : Str, t = l1 ++ lbrace :: (l2 ++ rbrace :: l3)

lemma bracePair_cons (c : Char) {t : Str} (h : BracePair t) : BracePair (c :: t) := by
  obtain ⟨l1, l2, l3, rfl⟩ := h
  exact ⟨c :: l1, l2, l3, rfl⟩

lemma bracePair_append (pre : Str) {t : Str} (h : BracePair t) :
    BracePair (pre ++ t) := by
  induction pre with
  | nil => simpa using h
  | cons c p ih => exact bracePair_cons c ih

lemma spanToClose_isSome {m : Str} (h : rbrace ∈ m) : spanToClose m ≠ none := by
  induction m with
  | nil => simp at h
  | cons c rest ih =>
    unfold spanToClose
    by_cases hc : c = rbrace
    · simp [hc]
    · have hr : rbrace ∈ rest := by
        rcases List.mem_cons.mp h with h1 | h1
        · exact absurd h1.symm hc
        · exact h1
      rcases hsp : spanToClose rest with _ | g
      · exact absurd hsp (ih hr)
      · simp [hc, hsp]

lemma searchBrace_of_pair {t : Str} (h : BracePair t) : searchBrace t ≠ none := by
  obtain ⟨l1, l2, l3, rfl⟩ := h
  induction l1 with
  | nil =>
    unfold searchBrace
    have hm : rbrace ∈ l2 ++ rbrace :: l3 := by simp
    rcases hsp : spanToClose (l2 ++ rbrace :: l3) with _ | g
    · exact absurd hsp (spanToClose_isSome hm)
    · simp [hsp]
  | cons c l1' ih =>
    unfold searchBrace
    by_cases hc : c = lbrace
    · have hm : rbrace ∈ l1' ++ lbrace :: (l2 ++ rbrace :: l3) := by simp
      rcases hsp : spanToClose (l1' ++ lbrace :: (l2 ++ rbrace :: l3)) with _ | g
      · exact absurd hsp (spanToClose_isSome hm)
      · simp [hc, hsp]
    · simpa [hc] using ih

lemma lazyGroup_mem : ∀ {m : Str} (acc : Str) {g : Str},
    lazyGroup acc m = some g → rbrace ∈ m := by
  intro m
  induction m with
  | nil => intro acc g h; simp [lazyGroup] at h
  | cons c rest ih =>
    intro acc g h
    unfold lazyGroup at h
    split at h
    · next hcond => exact List.mem_cons.mpr (Or.inl hcond.1.symm)
    · exact List.mem_cons_of_mem _ (ih _ h)

lemma tryFromWs_pair {r : Str} {g : Str} (h : tryFromWs r = some g) :
    BracePair r := by
  unfold tryFromWs at h
  rcases hd : r.dropWhile isWs with _ | ⟨c, rest2⟩
  · rw [hd] at h; simp at h
  · rw [hd] at h
    have h' : (if c = lbrace then lazyGroup [lbrace] rest2 else none) = some g := h
    by_cases hc : c = lbrace
    · rw [if_pos hc] at h'
      subst hc
      obtain ⟨a, b, rfl⟩ := List.append_of_mem (lazyGroup_mem _ h')
      have hdec := @List.takeWhile_append_dropWhile _ isWs r
      have hbp : BracePair (r.dropWhile isWs) := by
        rw [hd]
        exact ⟨[], a, b, rfl⟩
      have := bracePair_append (r.takeWhile isWs) hbp
      rwa [hdec] at this
    · rw [if_neg hc] at h'
      simp at h'

lemma matchFencedAt_pair {s : Str} {g : Str} (h : matchFencedAt s = some g) :
    BracePair s := by
  unfold matchFencedAt at h
  rcases s with _ | ⟨b1, s1⟩
  · simp at h
  rcases s1 with _ | ⟨b2, s2⟩
  · simp at h
  rcases s2 with _ | ⟨b3, rest⟩
  · simp at h
  have h' : (if b1 = btick ∧ b2 = btick ∧ b3 = btick then
      match (if "json".toList.isPrefixOf rest = true
        then tryFromWs (rest.drop 4) else none) with
      | some g2 => some g2
      | none => tryFromWs rest
    else none) = some g := h
  by_cases hb : b1 = btick ∧ b2 = btick ∧ b3 = btick
  · rw [if_pos hb] at h'
    rcases hj : (if "json".toList.isPrefixOf rest = true
        then tryFromWs (rest.drop 4) else none) with _ | g1
    · rw [hj] at h'
      exact bracePair_cons _ (bracePair_cons _ (bracePair_cons _ (tryFromWs_pair h')))
    · have hdrop : BracePair (rest.drop 4) := by
        by_cases hp : "json".toList.isPrefixOf rest = true
        · rw [if_pos hp] at hj
          exact tryFromWs_pair hj
        · rw [if_neg hp] at hj
          simp at hj
      have htd := List.take_append_drop 4 rest
      have := bracePair_append (rest.take 4) hdrop
      rw [htd] at this
      exact bracePair_cons _ (bracePair_cons _ (bracePair_cons _ this))
  · rw [if_neg hb] at h'
    simp at h'

lemma searchFenced_pair : ∀ {t g : Str}, searchFenced t = some g → BracePair t := by
  intro t
  induction t with
  | nil => intro g h; simp [searchFenced] at h
  | cons c rest ih =>
    intro g h
    unfold searchFenced at h
    rcases hm : matchFencedAt (c :: rest) with _ | g2
    · rw [hm] at h
      exact bracePair_cons c (ih h)
    · exact matchFencedAt_pair hm

lemma searchFenced_eq_none {t : Str} (h : searchBrace t = none) :
    searchFenced t = none := by
  rcases hf : searchFenced t with _ | g
  · rfl
  · exact absurd h (searchBrace_of_pair (searchFenced_pair hf))

lemma mem_of_getLastQuestion : ∀ {l : Str} {a : Char}, l.getLast? = some a → a ∈ l
  | [], _, h => by simp at h
  | [c], _, h => by simp_all
  | c :: d :: rest, a, h => by
    rw [List.getLast?_cons_cons] at h
    exact List.mem_cons_of_mem c (mem_of_getLastQuestion h)

lemma strip_delimited_pair {t : Str} (h1 : (pyStrip t).head? = some lbrace)
    (h2 : (pyStrip t).getLast? = some rbrace) : BracePair t := by
  rcases hs : pyStrip t with _ | ⟨c, s'⟩
  · rw [hs] at h1; simp at h1
  · rw [hs] at h1 h2
    have hc : c = lbrace := by simpa using h1
    subst hc
    have hmem : rbrace ∈ s' := by
      rcases s' with _ | ⟨d, s''⟩
      · have : lbrace = rbrace := by simpa using h2
        exact absurd this (by decide)
      · rw [List.getLast?_cons_cons] at h2
        exact mem_of_getLastQuestion h2
    obtain ⟨a, b, rfl⟩ := List.append_of_mem hmem
    have hex : ∃ suf : Str, t.dropWhile isWs = (lbrace :: (a ++ rbrace :: b)) ++ suf := by
      refine ⟨((t.dropWhile isWs).reverse.takeWhile isWs).reverse, ?_⟩
      rw [← hs]
      unfold pyStrip
      conv_lhs => rw [← List.reverse_reverse (t.dropWhile isWs)]
      conv_lhs =>
        rw [← @List.takeWhile_append_dropWhile _ isWs (t.dropWhile isWs).reverse]
      rw [List.reverse_append]
    obtain ⟨suf, hu⟩ := hex
    have hbp : BracePair (t.dropWhile isWs) := by
      refine ⟨[], a, b ++ suf, ?_⟩
      rw [hu]
      simp
    have := bracePair_append (t.takeWhile isWs) hbp
    rwa [List.takeWhile_append_dropWhile] at this

/-- C6 (amended): on any non-whitespace response lacking a brace-delimited
span, the parser returns the fixed synthetic error record; on an empty or
all-whitespace response it returns the empty mapping instead. In both cases it
returns a mapping and never throws. -/
theorem parser_no_span_synthetic_record (t : Str) :
    (t.all isWs = false → searchBrace t = none →
      extract_json_from_text t = errorJsonStr ∧
      parseModelResponse t = syntheticErrorObj) ∧
    (t.all isWs = true → parseModelResponse t = []) := by
  constructor
  · intro hws hb
    have hf := searchFenced_eq_none hb
    have hcase3 : ¬((pyStrip t).head? = some lbrace ∧ (pyStrip t).getLast? = some rbrace) := by
      rintro ⟨h1, h2⟩
      exact searchBrace_of_pair (strip_delimited_pair h1 h2) hb
    have hex : extract_json_from_text t = errorJsonStr := by
      unfold extract_json_from_text
      simp [hws, hf, hb, hcase3]
    refine ⟨hex, ?_⟩
    unfold parseModelResponse
    rw [hex]
    rfl
  · intro hws
    unfold parseModelResponse extract_json_from_text
    simp [hws]
    rfl

/-- Witness for the amended C6 at a concrete malformed response and at the
empty response. -/
theorem parser_no_span_synthetic_record_witness :
    parseModelResponse "hello".toList = syntheticErrorObj ∧
    parseModelResponse " ".toList = [] :=
  ⟨((parser_no_span_synthetic_record "hello".toList).1 rfl rfl).2,
   (parser_no_span_synthetic_record " ".toList).2 rfl⟩

/-- C6 (counterexample): the empty raw response contains no brace-delimited
span, yet the parser returns the EMPTY mapping, not the fixed synthetic error
record the claim promises. -/
theorem empty_response_not_synthetic_record :
    ([] : Str).all isWs = true ∧ searchBrace ([] : Str) = none ∧
    parseModelResponse [] = [] ∧ parseModelResponse [] ≠ syntheticErrorObj := by
  refine ⟨rfl, rfl, rfl, ?_⟩
  intro h
  have hlen : (0 : Nat) = 2 := congrArg List.length h
  exact absurd hlen (by decide)

lemma lazyGroup_clean (mid : Str) (hm : rbrace ∉ mid) :
    ∀ (acc rest : Str), checkTail rest = true →
      lazyGroup acc (mid ++ rbrace :: rest) =
        some ((rbrace :: (mid.reverse ++ acc)).reverse) := by
  induction mid with
  | nil =>
    intro acc rest hr
    have hstep : lazyGroup acc (rbrace :: rest) =
        if rbrace = rbrace ∧ checkTail rest = true then some ((rbrace :: acc).reverse)
        else lazyGroup (rbrace :: acc) rest := rfl
    show lazyGroup acc (rbrace :: rest) = _
    rw [hstep, if_pos ⟨rfl, hr⟩]
    simp
  | cons c mid' ih =>
    intro acc rest hr
    have hc : c ≠ rbrace := fun hcc => hm (by simp [hcc])
    have hm' : rbrace ∉ mid' := fun hmm => hm (List.mem_cons_of_mem _ hmm)
    have hstep : lazyGroup acc (c :: (mid' ++ rbrace :: rest)) =
        if c = rbrace ∧ checkTail (mid' ++ rbrace :: rest) = true
        then some ((rbrace :: acc).reverse)
        else lazyGroup (c :: acc) (mid' ++ rbrace :: rest) := rfl
    show lazyGroup acc (c :: (mid' ++ rbrace :: rest)) = _
    rw [hstep, if_neg (fun hand => hc hand.1)]
    rw [ih hm' (c :: acc) rest hr]
    simp

/-- No closing brace in the text is followed by (whitespace and) a closing
fence: under this condition the fenced regex cannot accept any group, since
the lazy group must end at such a brace. -/
def NoFenceClose (t : Str) : Prop :=
  ∀ pre rest : Str, t = pre ++ rbrace :: rest → checkTail rest = false

lemma noFenceClose_append {s : Str} (a : Str) (h : NoFenceClose (a ++ s)) :
    NoFenceClose s := by
  intro pre rest heq
  exact h (a ++ pre) rest (by rw [heq]; simp)

lemma noFenceClose_cons {c : Char} {t : Str} (h : NoFenceClose (c :: t)) :
    NoFenceClose t :=
  noFenceClose_append [c] h

lemma noFenceClose_drop {t : Str} (n : Nat) (h : NoFenceClose t) :
    NoFenceClose (t.drop n) := by
  refine noFenceClose_append (t.take n) ?_
  rw [List.take_append_drop]
  exact h

lemma noFenceClose_dropWhile {t : Str} (h : NoFenceClose t) :
    NoFenceClose (t.dropWhile isWs) := by
  refine noFenceClose_append (t.takeWhile isWs) ?_
  rw [List.takeWhile_append_dropWhile]
  exact h

lemma lazyGroup_none_of : ∀ (t : Str), NoFenceClose t → ∀ acc, lazyGroup acc t = none := by
  intro t
  induction t with
  | nil => intro _ acc; rfl
  | cons c rest ih =>
    intro h acc
    have hstep : lazyGroup acc (c :: rest) =
        if c = rbrace ∧ checkTail rest = true then some ((rbrace :: acc).reverse)
        else lazyGroup (c :: acc) rest := rfl
    rw [hstep, if_neg]
    · exact ih (noFenceClose_cons h) (c :: acc)
    · rintro ⟨h1, h2⟩
      have hf : checkTail rest = false := h [] rest (by rw [h1]; rfl)
      exact Bool.false_ne_true (hf.symm.trans h2)

lemma tryFromWs_none_of (r : Str) (h : NoFenceClose r) : tryFromWs r = none := by
  unfold tryFromWs
  rcases hd : r.dropWhile isWs with _ | ⟨c, rest2⟩
  · rfl
  · have h2 : NoFenceClose rest2 :=
      noFenceClose_cons (hd ▸ noFenceClose_dropWhile h)
    have hstep : (match c :: rest2 with
        | [] => (none : Option Str)
        | c2 :: rest3 => if c2 = lbrace then lazyGroup [lbrace] rest3 else none) =
        if c = lbrace then lazyGroup [lbrace] rest2 else none := rfl
    rw [hstep]
    by_cases hc : c = lbrace
    · rw [if_pos hc]
      exact lazyGroup_none_of rest2 h2 [lbrace]
    · rw [if_neg hc]

lemma matchFencedAt_none_of (s : Str) (h : NoFenceClose s) :
    matchFencedAt s = none := by
  rcases s with _ | ⟨b1, s1⟩
  · rfl
  rcases s1 with _ | ⟨b2, s2⟩
  · rfl
  rcases s2 with _ | ⟨b3, rest⟩
  · rfl
  have hstep : matchFencedAt (b1 :: b2 :: b3 :: rest) =
      if b1 = btick ∧ b2 = btick ∧ b3 = btick then
        (match (if "json".toList.isPrefixOf rest = true
          then tryFromWs (rest.drop 4) else none) with
         | some g => some g
         | none => tryFromWs rest)
      else none := rfl
  have h3 : NoFenceClose rest :=
    noFenceClose_cons (noFenceClose_cons (noFenceClose_cons h))
  have h4 : tryFromWs rest = none := tryFromWs_none_of rest h3
  have h5 : tryFromWs (rest.drop 4) = none :=
    tryFromWs_none_of (rest.drop 4) (noFenceClose_drop 4 h3)
  by_cases hb : b1 = btick ∧ b2 = btick ∧ b3 = btick
  · rw [hstep, if_pos hb]
    by_cases hp : "json".toList.isPrefixOf rest = true
    · rw [if_pos hp, h5]
      exact h4
    · rw [if_neg hp]
      exact h4
  · rw [hstep, if_neg hb]

lemma searchFenced_none_of : ∀ {t : Str}, NoFenceClose t → searchFenced t = none := by
  intro t
  induction t with
  | nil => intro _; rfl
  | cons c rest ih =>
    intro h
    unfold searchFenced
    rw [matchFencedAt_none_of (c :: rest) h]
    exact ih (noFenceClose_cons h)

lemma last_rbrace_tail_nil : ∀ (u : Str), rbrace ∉ u →
    ∀ pre rest : Str, u ++ [rbrace] = pre ++ rbrace :: rest → rest = [] := by
  intro u
  induction u with
  | nil =>
    intro _ pre rest h
    rcases pre with _ | ⟨p, pre2⟩
    · injection h with h1 h2
      exact h2.symm
    · injection h with h1 h2
      simp at h2
  | cons c u2 ih =>
    intro hu pre rest h
    rcases pre with _ | ⟨p, pre2⟩
    · injection h with h1 h2
      subst h1
      exact absurd (List.mem_cons_self _ _) hu
    · injection h with h1 h2
      exact ih (fun hm => hu (List.mem_cons_of_mem _ hm)) pre2 rest h2

lemma noFenceClose_jobj (mid : Str) (hm : rbrace ∉ mid) :
    NoFenceClose (jobjStr mid) := by
  intro pre rest heq
  have hsplit : (lbrace :: mid) ++ [rbrace] = pre ++ rbrace :: rest := heq
  have hrest : rest = [] := by
    refine last_rbrace_tail_nil (lbrace :: mid) ?_ pre rest hsplit
    intro hmem
    rcases List.mem_cons.mp hmem with h1 | h1
    · exact absurd h1 (by decide)
    · exact hm h1
  rw [hrest]
  rfl

lemma spanToClose_clean (mid : Str) (hm : rbrace ∉ mid) :
    spanToClose (mid ++ [rbrace]) = some (mid ++ [rbrace]) := by
  induction mid with
  | nil =>
    have hstep : spanToClose (rbrace :: ([] : Str)) =
        if rbrace = rbrace then some [rbrace]
        else (spanToClose ([] : Str)).map (fun s => rbrace :: s) := rfl
    show spanToClose (rbrace :: ([] : Str)) = _
    rw [hstep, if_pos rfl]
    rfl
  | cons c mid' ih =>
    have hc : c ≠ rbrace := fun hcc => hm (by simp [hcc])
    have hstep : spanToClose (c :: (mid' ++ [rbrace])) =
        if c = rbrace then some [rbrace]
        else (spanToClose (mid' ++ [rbrace])).map (fun s => c :: s) := rfl
    show spanToClose (c :: (mid' ++ [rbrace])) = _
    rw [hstep, if_neg hc, ih (fun hmm => hm (List.mem_cons_of_mem _ hmm))]
    rfl

lemma searchBrace_jobj (mid : Str) (hm : rbrace ∉ mid) :
    searchBrace (jobjStr mid) = some (jobjStr mid) := by
  show searchBrace (lbrace :: (mid ++ [rbrace])) = _
  have hstep : searchBrace (lbrace :: (mid ++ [rbrace])) =
      if lbrace = lbrace then (spanToClose (mid ++ [rbrace])).map (fun s => lbrace :: s)
      else searchBrace (mid ++ [rbrace]) := rfl
  rw [hstep, if_pos rfl, spanToClose_clean mid hm]
  rfl

lemma pyStrip_jobj (mid : Str) : pyStrip (jobjStr mid) = jobjStr mid := by
  unfold pyStrip
  have h1 : (jobjStr mid).dropWhile isWs = jobjStr mid := rfl
  rw [h1]
  have h2 : (jobjStr mid).reverse = rbrace :: (mid.reverse ++ [lbrace]) := by
    simp [jobjStr]
  rw [h2]
  have h3 : (rbrace :: (mid.reverse ++ [lbrace])).dropWhile isWs =
      rbrace :: (mid.reverse ++ [lbrace]) := rfl
  rw [h3, ← h2, List.reverse_reverse]

lemma tryFromWs_at_brace (X : Str) :
    tryFromWs (Char.ofNat 10 :: lbrace :: X) = lazyGroup [lbrace] X := rfl

lemma matchFencedAt_json (Y : Str) :
    matchFencedAt (btick :: btick :: btick :: 'j' :: 's' :: 'o' :: 'n' :: Y) =
      (match tryFromWs Y with
       | some g => some g
       | none => tryFromWs ('j' :: 's' :: 'o' :: 'n' :: Y)) := by
  have hstep : matchFencedAt (btick :: btick :: btick :: 'j' :: 's' :: 'o' :: 'n' :: Y) =
      if btick = btick ∧ btick = btick ∧ btick = btick then
        (match (if "json".toList.isPrefixOf ('j' :: 's' :: 'o' :: 'n' :: Y) = true
          then tryFromWs (('j' :: 's' :: 'o' :: 'n' :: Y).drop 4) else none) with
         | some g => some g
         | none => tryFromWs ('j' :: 's' :: 'o' :: 'n' :: Y))
      else none := rfl
  have hp : ("json".toList.isPrefixOf ('j' :: 's' :: 'o' :: 'n' :: Y)) = true := by
    simp [List.isPrefixOf]
  have hd : ('j' :: 's' :: 'o' :: 'n' :: Y).drop 4 = Y := rfl
  rw [hstep, if_pos ⟨rfl, rfl, rfl⟩, if_pos hp, hd]

lemma searchFenced_fencedWrap (mid : Str) (hm : rbrace ∉ mid) :
    searchFenced (fencedWrap (jobjStr mid)) = some (jobjStr mid) := by
  have hY : tryFromWs (Char.ofNat 10 :: lbrace :: ((mid ++ [rbrace]) ++ fencedPost)) =
      some (jobjStr mid) := by
    rw [tryFromWs_at_brace, List.append_assoc]
    show lazyGroup [lbrace] (mid ++ (rbrace :: fencedPost)) = some (jobjStr mid)
    rw [lazyGroup_clean mid hm [lbrace] fencedPost (by decide)]
    simp [jobjStr]
  have hmatch : matchFencedAt (btick :: btick :: btick :: 'j' :: 's' :: 'o' :: 'n' ::
      (Char.ofNat 10 :: lbrace :: ((mid ++ [rbrace]) ++ fencedPost))) =
      some (jobjStr mid) := by
    rw [matchFencedAt_json, hY]
  show searchFenced (btick :: (btick :: btick :: 'j' :: 's' :: 'o' :: 'n' ::
      (Char.ofNat 10 :: lbrace :: ((mid ++ [rbrace]) ++ fencedPost)))) = _
  unfold searchFenced
  rw [hmatch]

/-- C4 (counterexample): the same nested JSON payload parses to the nested
object when wrapped in a fenced code block, but to the parse-failure record
when unwrapped: the unfenced regex is lazy and truncates the span at the FIRST
closing brace, producing invalid JSON, while the fenced regex is anchored by
the closing fence and captures the whole payload. -/
theorem fenced_vs_unfenced_divergence :
    parseModelResponse (fencedWrap nestedPayload) =
      [("a".toList, JVal.obj [("b".toList, JVal.num 1)])] ∧
    parseModelResponse nestedPayload = parseErrorRecord nestedPayload ∧
    parseModelResponse (fencedWrap nestedPayload) ≠ parseModelResponse nestedPayload := by
  refine ⟨rfl, rfl, ?_⟩
  intro h
  have hk : (false : Bool) = true :=
    congrArg (fun o => hasKey o ("Raw Response".toList)) h
  cases hk

/-- C4 (amended): for payloads whose only closing brace is the final character
(no nested object), the fenced and unfenced responses extract the identical
span and hence parse to the identical structured output. On the unfenced text
the fenced regex cannot match at all: its lazy group must end at a closing
brace followed by a closing fence, and the payload's only closing brace is its
last character. -/
theorem fenced_equals_unfenced_for_flat_payloads (mid : Str) (o : Obj)
    (h1 : rbrace ∉ mid)
    (h3 : jsonLoads (jobjStr mid) = some (JVal.obj o)) :
    extract_json_from_text (fencedWrap (jobjStr mid)) = jobjStr mid ∧
    extract_json_from_text (jobjStr mid) = jobjStr mid ∧
    parseModelResponse (fencedWrap (jobjStr mid)) = o ∧
    parseModelResponse (jobjStr mid) = o := by
  have hexF : extract_json_from_text (fencedWrap (jobjStr mid)) = jobjStr mid := by
    unfold extract_json_from_text
    have hws : (fencedWrap (jobjStr mid)).all isWs = false := rfl
    rw [if_neg (by rw [hws]; exact Bool.false_ne_true)]
    rw [searchFenced_fencedWrap mid h1]
    exact pyStrip_jobj mid
  have hexU : extract_json_from_text (jobjStr mid) = jobjStr mid := by
    unfold extract_json_from_text
    have hws : (jobjStr mid).all isWs = false := rfl
    rw [if_neg (by rw [hws]; exact Bool.false_ne_true)]
    rw [searchFenced_none_of (noFenceClose_jobj mid h1), searchBrace_jobj mid h1]
    exact pyStrip_jobj mid
  refine ⟨hexF, hexU, ?_, ?_⟩
  · unfold parseModelResponse
    rw [hexF, h3]
  · unfold parseModelResponse
    rw [hexU, h3]

/-- Witness for the amended C4 at a concrete flat payload (one that even
contains a backtick, exercising that no backtick restriction is needed). -/
theorem fenced_equals_unfenced_for_flat_payloads_witness :
    rbrace ∉ "\"Title\": \"X`Y\"".toList ∧
    parseModelResponse (fencedWrap (jobjStr "\"Title\": \"X`Y\"".toList)) =
      [("Title".toList, JVal.str "X`Y".toList)] ∧
    parseModelResponse (jobjStr "\"Title\": \"X`Y\"".toList) =
      [("Title".toList, JVal.str "X`Y".toList)] :=
  ⟨by decide,
   (fenced_equals_unfenced_for_flat_payloads "\"Title\": \"X`Y\"".toList
     [("Title".toList, JVal.str "X`Y".toList)] (by decide) rfl).2.2.1,
   (fenced_equals_unfenced_for_flat_payloads "\"Title\": \"X`Y\"".toList
     [("Title".toList, JVal.str "X`Y".toList)] (by decide) rfl).2.2.2⟩
